import Mathlib

/-!
Verification of the CaaS testing client and mapping/query layer of the
fsxa-api repository. The definitions below are a shallow embedding of the
TypeScript source: every method of `CaasTestingClient` is modelled as a pure
function from the client state (and its arguments) to the HTTP request it
would issue, with `Option Request` standing for `Response | undefined`.
Machine-level JavaScript behaviour that the code relies on (string coercion
of `undefined`, truthiness of strings, `JSON.stringify` dropping `undefined`
fields, `encodeURIComponent`) is modelled explicitly.
-/

set_option autoImplicit false

namespace FsxaApi

/-- Hexadecimal digit (uppercase) for `n < 16`, as used by `encodeURIComponent`. -/
def hexDigit (n : Nat) : Char :=
  if n < 10 then Char.ofNat (48 + n) else Char.ofNat (55 + n)

/-- UTF-8 byte sequence of a single code point, as percent-encoding operates on bytes. -/
def utf8Bytes (c : Char) : List Nat :=
  let n := c.toNat
  if n < 128 then [n]
  else if n < 2048 then [192 + n / 64, 128 + n % 64]
  else if n < 65536 then [224 + n / 4096, 128 + (n / 64) % 64, 128 + n % 64]
  else [240 + n / 262144, 128 + (n / 4096) % 64, 128 + (n / 64) % 64, 128 + n % 64]

/-- The characters `encodeURIComponent` leaves intact: `A-Z a-z 0-9 - _ . ! ~ * ( )`
and the apostrophe (codes given numerically). -/
def isUnreservedCode (n : Nat) : Bool :=
  (48 ≤ n && n ≤ 57) || (65 ≤ n && n ≤ 90) || (97 ≤ n && n ≤ 122) ||
  n == 45 || n == 95 || n == 46 || n == 33 || n == 126 || n == 42 ||
  n == 39 || n == 40 || n == 41

/-- Percent-encoding of one character, following ECMAScript `encodeURIComponent`. -/
def encodeChar (c : Char) : List Char :=
  if isUnreservedCode c.toNat then [c]
  else (utf8Bytes c).flatMap (fun b => [Char.ofNat 37, hexDigit (b / 16), hexDigit (b % 16)])

/-- Model of ECMAScript `encodeURIComponent`. -/
def encodeURIComponent (s : String) : String :=
  String.mk (s.data.flatMap encodeChar)

/-- JavaScript string coercion of an optional string: `undefined` renders as
the literal string "undefined" (the behaviour of `fetch(this.remoteBaseUrl!)`
when `remoteBaseUrl` is `undefined`). -/
def jsStringOpt : Option String → String
  | none => "undefined"
  | some s => s

/-- JavaScript truthiness of an optional string: `undefined` and the empty
string are falsy, every other string is truthy. -/
def truthyOpt : Option String → Bool
  | none => false
  | some s => !s.isEmpty

/-- Locale from `types`: a language + country pair. -/
structure Locale where
  language : String
  country : String
  deriving DecidableEq, Repr

/-- `FSXAContentMode` from `src/enums`: the two content modes and their string values. -/
inductive FSXAContentMode where
  | preview
  | release
  deriving DecidableEq, Repr

/-- The string value of a content mode, as interpolated into the base URL. -/
def FSXAContentMode.str : FSXAContentMode → String
  | .preview => "preview"
  | .release => "release"

/-- `RequestMethodEnum` from the testing-client source. -/
inductive RequestMethodEnum where
  | GET
  | POST
  | PUT
  | DELETE
  | PATCH
  deriving DecidableEq, Repr

/-- A document handed to the write helpers. `TestDocument` and `CaasApi_Item`
are structural TypeScript types; the claims relate documents carrying the
union of their fields: a storage key `_id`, an `identifier`, a `locale`, and
the remaining data fields as an association list. -/
structure TestDocument where
  _id : String
  identifier : String
  locale : Locale
  data : List (String × String)
  deriving DecidableEq, Repr

/-- A document as serialized into a request body: `_id` may have been set to
`undefined` (`none`), in which case `JSON.stringify` omits it. -/
structure BodyDoc where
  _id : Option String
  identifier : String
  locale : Locale
  data : List (String × String)
  deriving DecidableEq, Repr

/-- JSON rendering of a string value. -/
def jsonStr (s : String) : String :=
  "\"" ++ s ++ "\""

/-- JSON rendering of a `Locale` object. -/
def serializeLocale (l : Locale) : String :=
  "\x7b\"language\":" ++ jsonStr l.language ++ ",\"country\":" ++ jsonStr l.country ++ "\x7d"

/-- JSON rendering of the trailing data fields of a document. -/
def serializeData : List (String × String) → String
  | [] => ""
  | (k, v) :: rest => "," ++ jsonStr k ++ ":" ++ jsonStr v ++ serializeData rest

/-- `JSON.stringify` of a body document: an `_id` that was set to `undefined`
is absent from the output; every other field is rendered. -/
def serializeBodyDoc (d : BodyDoc) : String :=
  let idPart := match d._id with
    | none => ""
    | some i => "\"_id\":" ++ jsonStr i ++ ","
  "\x7b" ++ idPart ++ "\"identifier\":" ++ jsonStr d.identifier ++
    ",\"locale\":" ++ serializeLocale d.locale ++ serializeData d.data ++ "\x7d"

/-- A `TestDocument` serialized with its `_id` present. -/
def serializeTestDocument (d : TestDocument) : String :=
  serializeBodyDoc { _id := some d._id, identifier := d.identifier, locale := d.locale, data := d.data }

/-- `JSON.stringify` of an array of documents. -/
def serializeDocList (ds : List TestDocument) : String :=
  let rec go : List TestDocument → String
    | [] => ""
    | [d] => serializeTestDocument d
    | d :: rest => serializeTestDocument d ++ "," ++ go rest
  "[" ++ go ds ++ "]"

/-- `CaaSTestingClientData`: the construction input of the testing client. -/
structure CaaSTestingClientData where
  caasURL : String
  tenantID : String
  apikey : String
  projectID : String
  contentMode : FSXAContentMode
  remoteProjectId : Option String
  deriving DecidableEq, Repr

/-- The state of a constructed `CaasTestingClient`. -/
structure CaasTestingClient where
  baseUrl : String
  headers : List (String × String)
  projectId : String
  contentMode : FSXAContentMode
  remoteProjectId : Option String
  remoteBaseUrl : Option String
  deriving DecidableEq, Repr

/-- The private constructor of `CaasTestingClient`: headers, the base URL
`caasURL/tenantID/projectID.contentMode.content`, and — only when the
remote project id is truthy — the remote: counterpart with the remote
project id substituted. -/
def mkClient (d : CaaSTestingClientData) : CaasTestingClient :=
  { headers := [("Authorization", "Bearer " ++ d.apikey), ("Content-Type", "application/json")]
    projectId := d.projectID
    contentMode := d.contentMode
    baseUrl := d.caasURL ++ "/" ++ d.tenantID ++ "/" ++ d.projectID ++ "." ++
      d.contentMode.str ++ ".content"
    remoteProjectId := if truthyOpt d.remoteProjectId then d.remoteProjectId else none
    remoteBaseUrl :=
      if truthyOpt d.remoteProjectId then
        some (d.caasURL ++ "/" ++ d.tenantID ++ "/" ++ (d.remoteProjectId.getD "") ++ "." ++
          d.contentMode.str ++ ".content")
      else none }

/-- An HTTP request as issued through `fetch`. -/
structure Request where
  url : String
  method : RequestMethodEnum
  headers : List (String × String)
  body : Option String
  deriving DecidableEq, Repr

/-- `getCollection`: GET on the base URL. -/
def getCollection (c : CaasTestingClient) : Request :=
  { url := c.baseUrl, method := .GET, headers := c.headers, body := none }

/-- `getRemoteCollection`: the source calls `fetch(this.remoteBaseUrl!, ...)`
unconditionally, so an unconfigured remote base URL is coerced to the string
"undefined" and a fetch is still attempted. -/
def getRemoteCollection (c : CaasTestingClient) : Option Request :=
  some { url := jsStringOpt c.remoteBaseUrl, method := .GET, headers := c.headers, body := none }

/-- `createCollection`: PUT on the base URL. -/
def createCollection (c : CaasTestingClient) : Request :=
  { url := c.baseUrl, method := .PUT, headers := c.headers, body := none }

/-- `createRemoteCollection`: like `getRemoteCollection`, the source calls
`fetch(this.remoteBaseUrl!, ...)` unconditionally. -/
def createRemoteCollection (c : CaasTestingClient) : Option Request :=
  some { url := jsStringOpt c.remoteBaseUrl, method := .PUT, headers := c.headers, body := none }

/-- `removeCollection`: DELETE on the base URL with an If-Match header appended. -/
def removeCollection (c : CaasTestingClient) (etag : String) : Request :=
  { url := c.baseUrl, method := .DELETE,
    headers := c.headers ++ [("If-Match", etag)], body := none }

/-- `removeRemoteCollection`: guarded by `this.remoteBaseUrl` — yields
`undefined` (`none`) without fetching when the remote base URL is not set. -/
def removeRemoteCollection (c : CaasTestingClient) (etag : String) : Option Request :=
  match c.remoteBaseUrl with
  | none => none
  | some u =>
    some { url := u, method := .DELETE, headers := c.headers ++ [("If-Match", etag)], body := none }

/-- `getItem`: GET on `baseUrl/identifier.locale`. -/
def getItem (c : CaasTestingClient) (identifier locale : String) : Request :=
  { url := c.baseUrl ++ "/" ++ identifier ++ "." ++ locale,
    method := .GET, headers := c.headers, body := none }

/-- `removeItem`: DELETE on `baseUrl/identifier.locale` with If-Match. -/
def removeItem (c : CaasTestingClient) (identifier locale etag : String) : Request :=
  { url := c.baseUrl ++ "/" ++ identifier ++ "." ++ locale,
    method := .DELETE, headers := c.headers ++ [("If-Match", etag)], body := none }

/-- The storage key pattern: identifier, a dot, and the locale rendered as
language underscore country. -/
def docKey (identifier : String) (loc : Locale) : String :=
  identifier ++ "." ++ loc.language ++ "_" ++ loc.country

/-- The body document of `addDocToCollection`: the spread copy of the input
with `_id` set to `undefined`; every other field is untouched. -/
def addDocBody (doc : TestDocument) : BodyDoc :=
  { _id := none, identifier := doc.identifier, locale := doc.locale, data := doc.data }

/-- `addDocToCollection` (deprecated single-document write): PUT on
`baseUrl/encodedId.encodedLanguage_country` with the `_id`-stripped document
as body. -/
def addDocToCollection (c : CaasTestingClient) (doc : TestDocument) : Request :=
  let encodedLocale := encodeURIComponent (doc.locale.language ++ "_" ++ doc.locale.country)
  let encodedId := encodeURIComponent doc._id
  { url := c.baseUrl ++ "/" ++ encodedId ++ "." ++ encodedLocale,
    method := .PUT, headers := c.headers,
    body := some (serializeBodyDoc (addDocBody doc)) }

/-- The mapped documents of the deprecated bulk path `addDocsToCollection`:
each document keeps all fields and gets the locale suffix appended to its
`_id`, using the document's own locale field. -/
def addDocsBodyDocs (docs : List TestDocument) : List TestDocument :=
  docs.map (fun doc =>
    { doc with _id := doc._id ++ "." ++ doc.locale.language ++ "_" ++ doc.locale.country })

/-- `addDocsToCollection` (deprecated bulk write): POST of the mapped
documents to the base URL. -/
def addDocsToCollection (c : CaasTestingClient) (docs : List TestDocument) : Request :=
  { url := c.baseUrl, method := .POST, headers := c.headers,
    body := some (serializeDocList (addDocsBodyDocs docs)) }

/-- The mapped documents of the newer bulk path: each document gets its
`locale` field overwritten with the supplied locale and its `_id` set to
`identifier.language_country` from the supplied locale. -/
def addItemsBodyDocs (docs : List TestDocument) (locale : Locale) : List TestDocument :=
  docs.map (fun doc =>
    { doc with
      locale := locale
      _id := doc.identifier ++ "." ++ locale.language ++ "_" ++ locale.country })

/-- `addItemsToCollectionWithBaseUrl`: POST of the mapped documents to the
given base URL. -/
def addItemsToCollectionWithBaseUrl (c : CaasTestingClient) (docs : List TestDocument)
    (locale : Locale) (baseUrl : String) : Request :=
  { url := baseUrl, method := .POST, headers := c.headers,
    body := some (serializeDocList (addItemsBodyDocs docs locale)) }

/-- `addItemsToCollection`: the newer bulk write against the local base URL. -/
def addItemsToCollection (c : CaasTestingClient) (docs : List TestDocument)
    (locale : Locale) : Request :=
  addItemsToCollectionWithBaseUrl c docs locale c.baseUrl

/-- `addItemsToRemoteCollection`: guarded by `this.remoteBaseUrl` — yields
`undefined` (`none`) without fetching when the remote base URL is not set. -/
def addItemsToRemoteCollection (c : CaasTestingClient) (docs : List TestDocument)
    (locale : Locale) : Option Request :=
  match c.remoteBaseUrl with
  | none => none
  | some u => some (addItemsToCollectionWithBaseUrl c docs locale u)

/-- The loop of `retryAsync`: `remaining` attempts left, 1-based `attempt`
counter, the last stored error and the number of invocations so far. The
`i`-th invocation of `fn` is modelled by `fn i`; delays and the `onRetry`
callback have no effect on the result. Returns the outcome together with how
often `fn` was invoked. -/
def retryGo {A : Type} (fn : Nat → Except String A) :
    Nat → Nat → String → Nat → Except String A × Nat
  | 0, _, lastError, calls => (.error lastError, calls)
  | r + 1, attempt, _, calls =>
    match fn attempt with
    | .ok v => (.ok v, calls + 1)
    | .error e => retryGo fn r (attempt + 1) e (calls + 1)

/-- `retryAsync`: run `fn` up to `maxRetries` times (a nonpositive count runs
the loop zero times) starting from the stored error "No attempts made". -/
def retryAsync {A : Type} (fn : Nat → Except String A) (maxRetries : Int) :
    Except String A × Nat :=
  retryGo fn maxRetries.toNat 1 "No attempts made" 0

/-- The loop of `waitUntilPreconditionMet`. `cond i` is the outcome of the
`i`-th invocation of the condition (`.error` = it threw); `clock i` is the
elapsed time `Date.now() - startTime` observed at the `i`-th loop check.
`fuel` bounds the number of iterations the model unfolds (real time always
advances, so any run with the clock eventually reaching the timeout is
covered by a large enough fuel). Returns the outcome and the number of
condition invocations, or `none` when the fuel ran out first. -/
def waitGo (cond : Nat → Except Unit Bool) (clock : Nat → Nat) (timeoutMs : Int)
    (errorMessage : String) : Nat → Nat → Nat → Option (Except String Unit × Nat)
  | 0, _, _ => none
  | fuel + 1, i, calls =>
    if (clock i : Int) < timeoutMs then
      match cond i with
      | .ok true => some (.ok (), calls + 1)
      | .ok false => waitGo cond clock timeoutMs errorMessage fuel (i + 1) (calls + 1)
      | .error _ => waitGo cond clock timeoutMs errorMessage fuel (i + 1) (calls + 1)
    else
      some (.error (errorMessage ++ " (waited " ++ toString timeoutMs ++ "ms)"), calls)

/-- `waitUntilPreconditionMet`: poll the condition until it is truthy or the
timeout has elapsed, swallowing exceptions of the condition. -/
def waitUntilPreconditionMet (cond : Nat → Except Unit Bool) (clock : Nat → Nat)
    (timeoutMs : Int) (errorMessage : String) (fuel : Nat) :
    Option (Except String Unit × Nat) :=
  waitGo cond clock timeoutMs errorMessage fuel 0 0

/-- `ComparisonQueryOperatorEnum`. Modelled from the spec: the closed set of
comparison operators (the mapper module itself is not under `src/`, only
re-exported there). -/
inductive ComparisonQueryOperatorEnum where
  | EQUALS
  | NOT_EQUALS
  | GREATER_THAN
  | GREATER_THAN_EQUALS
  | LESS_THAN
  | LESS_THAN_EQUALS
  deriving DecidableEq, Repr

/-- The native key of a comparison operator. Modelled from the spec: leaves
translate to a single native operator object keyed by field name. -/
def ComparisonQueryOperatorEnum.key : ComparisonQueryOperatorEnum → String
  | .EQUALS => "$eq"
  | .NOT_EQUALS => "$ne"
  | .GREATER_THAN => "$gt"
  | .GREATER_THAN_EQUALS => "$gte"
  | .LESS_THAN => "$lt"
  | .LESS_THAN_EQUALS => "$lte"

/-- `ArrayQueryOperatorEnum`. Modelled from the spec: the closed set of array
operators. -/
inductive ArrayQueryOperatorEnum where
  | CONTAINS_ELEMENT
  | ELEMENT_MATCHES
  | SIZE_EQUALS
  deriving DecidableEq, Repr

/-- The native key of an array operator. Modelled from the spec. -/
def ArrayQueryOperatorEnum.key : ArrayQueryOperatorEnum → String
  | .CONTAINS_ELEMENT => "$contains"
  | .ELEMENT_MATCHES => "$elemMatch"
  | .SIZE_EQUALS => "$size"

/-- `LogicalQueryOperatorEnum`. Modelled from the spec: the closed set of
logical connectives. -/
inductive LogicalQueryOperatorEnum where
  | AND
  | OR
  | NOT
  deriving DecidableEq, Repr

/-- The native key of a logical operator. Modelled from the spec: a Logical
node translates to a native composite keyed by the logical operator. -/
def LogicalQueryOperatorEnum.key : LogicalQueryOperatorEnum → String
  | .AND => "$and"
  | .OR => "$or"
  | .NOT => "$not"

/-- `QueryBuilderErrors`. Modelled from the spec taxonomy for query
translation. -/
inductive QueryBuilderErrors where
  | invalidOperator
  | invalidArity
  | missingField
  | missingValue
  deriving DecidableEq, Repr

/-- A raw filter value. Modelled from the spec; `null` stands for a missing
value. -/
inductive FilterValue where
  | str (s : String)
  | num (n : Int)
  | null
  deriving DecidableEq, Repr

/-- `FilterExpression`. Modelled from the spec: tagged variant of Comparison,
Array and Logical nodes. -/
inductive FilterExpression where
  | comparison (field : String) (op : ComparisonQueryOperatorEnum) (value : FilterValue)
  | arrayFilter (field : String) (op : ArrayQueryOperatorEnum) (values : List FilterValue)
  | logical (op : LogicalQueryOperatorEnum) (children : List FilterExpression)
  deriving Repr

/-- The backend-native filter document. Modelled from the spec: a nested
key/value structure. -/
inductive NativeFilter where
  | field (name : String) (opKey : String) (value : FilterValue)
  | fieldList (name : String) (opKey : String) (values : List FilterValue)
  | composite (opKey : String) (children : List NativeFilter)
  deriving Repr

mutual

/-- `translateFilter`. Modelled from the spec: recursive descent; leaves
translate to a single native operator object keyed by field name, Logical
nodes to a composite keyed by the logical operator with the children
translated in input order; an empty field fails with MissingField, a missing
value with MissingValue, an empty or over-long NOT child list with
InvalidArity. -/
def translateFilter : FilterExpression → Except QueryBuilderErrors NativeFilter
  | .comparison f op v =>
    if f = "" then .error .missingField
    else
      match v with
      | .null => .error .missingValue
      | v => .ok (.field f op.key v)
  | .arrayFilter f op vs =>
    if f = "" then .error .missingField
    else .ok (.fieldList f op.key vs)
  | .logical op children =>
    match children with
    | [] => .error .invalidArity
    | c :: cs =>
      if op = .NOT ∧ 0 < cs.length then .error .invalidArity
      else
        match translateFilterList (c :: cs) with
        | .error e => .error e
        | .ok rs => .ok (.composite op.key rs)

/-- Translation of a child list, in input order. -/
def translateFilterList : List FilterExpression → Except QueryBuilderErrors (List NativeFilter)
  | [] => .ok []
  | c :: cs =>
    match translateFilter c, translateFilterList cs with
    | .error e, _ => .error e
    | .ok _, .error e => .error e
    | .ok r, .ok rs => .ok (r :: rs)

end

/-- A raw backend document for reference resolution. Modelled from the spec:
an identifier and its reference fields. -/
structure RawItem where
  identifier : String
  refs : List String
  deriving DecidableEq, Repr

/-- Reasons of an UnresolvedMarker. Modelled from the spec taxonomy. -/
inductive UnresolvedReason where
  | cycleDetected
  | depthExceeded
  | referenceNotFound
  deriving DecidableEq, Repr

/-- A mapped item: a resolved node owning its children, or an
UnresolvedMarker. Modelled from the spec. -/
inductive MappedItem where
  | item (identifier : String) (children : List MappedItem)
  | unresolved (identifier : String) (reason : UnresolvedReason)
  deriving Repr

/-- `resolve`. Modelled from the spec: the ResolutionContext carries the set
of identifiers currently being resolved (the cycle breaker) and the depth
budget; a back-edge onto an in-progress identifier is cut and replaced by an
UnresolvedMarker, an exhausted depth budget yields DepthExceeded, a fetch
miss yields ReferenceNotFound, and otherwise the item is fetched and its
references resolved recursively with the identifier marked in progress. -/
def resolveRef (graph : String → Option RawItem) :
    Nat → List String → String → MappedItem
  | 0, _, id => .unresolved id .depthExceeded
  | fuel + 1, inProgress, id =>
    if id ∈ inProgress then .unresolved id .cycleDetected
    else
      match graph id with
      | none => .unresolved id .referenceNotFound
      | some raw => .item id (raw.refs.map (fun r => resolveRef graph fuel (id :: inProgress) r))

/-- `map` on a single root. Modelled from the spec: a fresh ResolutionContext
with an empty in-progress set and the configured maximum depth. -/
def mapItem (graph : String → Option RawItem) (maxDepth : Nat) (rootId : String) : MappedItem :=
  resolveRef graph maxDepth [] rootId

/-- The two-node cyclic reference graph: `a` references `b` and `b`
references `a`. -/
def twoCycleGraph (a b : String) : String → Option RawItem :=
  fun x =>
    if x = a then some { identifier := a, refs := [b] }
    else if x = b then some { identifier := b, refs := [a] }
    else none

/-- The fetch log of resolving a list of sibling references against a shared
memo table. Modelled from the spec: memo writes are serialized per
identifier and readers block until the in-flight resolution for that
identifier completes, so each identifier not yet in the memo triggers
exactly one fetch and is then memoized. -/
def siblingFetchGo : List String → List String → List String
  | [], _ => []
  | r :: rs, memo =>
    if r ∈ memo then siblingFetchGo rs memo
    else r :: siblingFetchGo rs (r :: memo)

/-- The identifiers fetched while resolving sibling references. Modelled from
the spec: `resolutionConcurrency` bounds only the parallel dispatch of
fetches; the serialized memo discipline makes the set of fetches independent
of it. -/
def siblingFetches (resolutionConcurrency : Nat) (refs : List String) : List String :=
  let _ := resolutionConcurrency
  siblingFetchGo refs []

/-- Whether the needle list is an initial segment of the haystack list. -/
def startsWithList : List Char → List Char → Bool
  | [], _ => true
  | _ :: _, [] => false
  | n :: ns, h :: hs => n == h && startsWithList ns hs

/-- Whether the needle occurs contiguously anywhere in the haystack. -/
def hasSubList (needle : List Char) : List Char → Bool
  | [] => startsWithList needle []
  | h :: hs => startsWithList needle (h :: hs) || hasSubList needle hs

/-- Substring occurrence on strings. -/
def strContains (needle hay : String) : Bool :=
  hasSubList needle.data hay.data

/-- Construction data of a client with no remote project id configured. -/
def noRemoteData : CaaSTestingClientData :=
  { caasURL := "https://caas.example.com", tenantID := "tenant", apikey := "key",
    projectID := "proj", contentMode := .preview, remoteProjectId := none }

/-- Construction data of a client whose remote project id was supplied as the
empty string. -/
def emptyRemoteData : CaaSTestingClientData :=
  { noRemoteData with remoteProjectId := some "" }

/-- A sample well-formed document. -/
def sampleDoc : TestDocument :=
  { _id := "doc1", identifier := "doc1",
    locale := { language := "de", country := "DE" }, data := [("title", "Home")] }

/-- A sample document whose `_id` differs from its `identifier`. -/
def mismatchedDoc : TestDocument :=
  { sampleDoc with _id := "other" }

/-- A sample locale. -/
def sampleLocale : Locale :=
  { language := "de", country := "DE" }

end FsxaApi

namespace FsxaApi

/-- C1: the claim says all four remote-targeting operations yield `undefined`
without fetching when no remote project id was configured. The code honours
this only for `removeRemoteCollection` and `addItemsToRemoteCollection`;
`getRemoteCollection` and `createRemoteCollection` dereference
`this.remoteBaseUrl!` and issue a fetch against the string-coerced URL
"undefined", contradicting the documented return type
`Http Response | undefined` of `getRemoteCollection`. This theorem evaluates
all four operations on a client constructed without a remote project id. -/
theorem remoteOps_without_remote_config :
    (mkClient noRemoteData).remoteBaseUrl = none ∧
    removeRemoteCollection (mkClient noRemoteData) "etag" = none ∧
    addItemsToRemoteCollection (mkClient noRemoteData) [sampleDoc] sampleLocale = none ∧
    getRemoteCollection (mkClient noRemoteData) =
      some { url := "undefined", method := .GET,
             headers := (mkClient noRemoteData).headers, body := none } ∧
    createRemoteCollection (mkClient noRemoteData) =
      some { url := "undefined", method := .PUT,
             headers := (mkClient noRemoteData).headers, body := none } := by
  refine ⟨rfl, rfl, rfl, rfl, rfl⟩

/-- C4 counterexample: a client constructed with the remote project id
supplied as the empty string has no remote base location, refuting
"defined if and only if a remote project identifier was supplied" (the
constructor tests JavaScript truthiness, and the empty string is falsy). -/
theorem remoteBaseUrl_not_iff_supplied :
    ¬ ((mkClient emptyRemoteData).remoteBaseUrl.isSome ↔
        emptyRemoteData.remoteProjectId.isSome) := by
  decide

/-- C4 (amended): the base location is
`caasURL/tenantID/projectID.contentMode.content`; the remote base location is
the same derivation with the remote project id substituted, and it is defined
if and only if a non-empty remote project identifier was supplied. -/
theorem mkClient_baseLocations (d : CaaSTestingClientData) :
    (mkClient d).baseUrl =
      d.caasURL ++ "/" ++ d.tenantID ++ "/" ++ d.projectID ++ "." ++
        d.contentMode.str ++ ".content" ∧
    ((mkClient d).remoteBaseUrl.isSome ↔ ∃ r, d.remoteProjectId = some r ∧ r ≠ "") ∧
    (∀ r, d.remoteProjectId = some r → r ≠ "" →
      (mkClient d).remoteBaseUrl =
        some (d.caasURL ++ "/" ++ d.tenantID ++ "/" ++ r ++ "." ++
          d.contentMode.str ++ ".content")) := by
  refine ⟨rfl, ?_, ?_⟩
  · cases h : d.remoteProjectId with
    | none => simp [mkClient, truthyOpt, h]
    | some s =>
      by_cases hs : s = ""
      · subst hs
        have hT : ("" : String).isEmpty = true := by decide
        simp [mkClient, truthyOpt, h, hT]
      · have hF : s.isEmpty = false :=
          Bool.eq_false_iff.mpr (fun hT => hs ((String.isEmpty_iff s).mp hT))
        simp [mkClient, truthyOpt, h, hF, hs]
  · intro r hr hne
    have hF : r.isEmpty = false :=
      Bool.eq_false_iff.mpr (fun hT => hne ((String.isEmpty_iff r).mp hT))
    simp [mkClient, truthyOpt, hr, hF]

/-- C4 witness: the amended derivation evaluated on a concrete client with a
non-empty remote project id. -/
theorem mkClient_baseLocations_witness :
    (mkClient { noRemoteData with remoteProjectId := some "remote1" }).remoteBaseUrl =
      some ("https://caas.example.com" ++ "/" ++ "tenant" ++ "/" ++ "remote1" ++ "." ++
        FSXAContentMode.str .preview ++ ".content") :=
  (mkClient_baseLocations { noRemoteData with remoteProjectId := some "remote1" }).2.2
    "remote1" rfl (by decide)

/-- C2: every item write addresses a document key of the form
`identifier.language_country`: `addDocToCollection` places it in the URL
(percent-encoded, so literally of that form whenever encoding leaves the
components intact), while `addDocsToCollection` and the newer
`addItemsToCollection` path write it into each body document's `_id`. -/
theorem write_paths_use_docKey :
    (∀ (c : CaasTestingClient) (doc : TestDocument),
      encodeURIComponent doc._id = doc._id →
      encodeURIComponent (doc.locale.language ++ "_" ++ doc.locale.country) =
        doc.locale.language ++ "_" ++ doc.locale.country →
      (addDocToCollection c doc).url = c.baseUrl ++ "/" ++ docKey doc._id doc.locale) ∧
    (∀ docs : List TestDocument,
      (addDocsBodyDocs docs).map TestDocument._id =
        docs.map (fun d => docKey d._id d.locale)) ∧
    (∀ (docs : List TestDocument) (loc : Locale),
      (addItemsBodyDocs docs loc).map TestDocument._id =
        docs.map (fun d => docKey d.identifier loc)) ∧
    (∀ (c : CaasTestingClient) (docs : List TestDocument),
      (addDocsToCollection c docs).body = some (serializeDocList (addDocsBodyDocs docs))) ∧
    (∀ (c : CaasTestingClient) (docs : List TestDocument) (loc : Locale),
      (addItemsToCollection c docs loc).body =
        some (serializeDocList (addItemsBodyDocs docs loc))) := by
  refine ⟨?_, ?_, ?_, fun c docs => rfl, fun c docs loc => rfl⟩
  · intro c doc h1 h2
    rw [String.append_assoc] at h2
    simp [addDocToCollection, docKey, h1, h2, String.append_assoc]
  · intro docs
    simp [addDocsBodyDocs, docKey, String.append_assoc]
  · intro docs loc
    simp [addItemsBodyDocs, docKey, String.append_assoc]

/-- C2 witness: the URL key of `addDocToCollection` evaluated on a concrete
document whose components percent-encode to themselves. -/
theorem write_paths_use_docKey_witness :
    (addDocToCollection (mkClient noRemoteData) sampleDoc).url =
      (mkClient noRemoteData).baseUrl ++ "/" ++ docKey sampleDoc._id sampleDoc.locale :=
  write_paths_use_docKey.1 (mkClient noRemoteData) sampleDoc (by decide) (by decide)

/-- C3: on document lists where each document's `_id` equals its `identifier`
and each document's `locale` equals the supplied locale, the deprecated
`addDocsToCollection` and the newer `addItemsToCollection` issue the same
request (same URL, same POST method, same serialized body); without that
precondition the two paths can issue different requests. -/
theorem bulk_write_paths_agree :
    (∀ (c : CaasTestingClient) (docs : List TestDocument) (loc : Locale),
      (∀ d ∈ docs, d._id = d.identifier ∧ d.locale = loc) →
      addDocsToCollection c docs = addItemsToCollection c docs loc) ∧
    (∃ (c : CaasTestingClient) (docs : List TestDocument) (loc : Locale),
      addDocsToCollection c docs ≠ addItemsToCollection c docs loc) := by
  constructor
  · intro c docs loc h
    have hdocs : addDocsBodyDocs docs = addItemsBodyDocs docs loc := by
      unfold addDocsBodyDocs addItemsBodyDocs
      refine List.map_congr_left (fun d hd => ?_)
      obtain ⟨hid, hloc⟩ := h d hd
      cases d with
      | mk i ident l dat =>
        simp only at hid hloc
        subst hid
        subst hloc
        rfl
    unfold addDocsToCollection addItemsToCollection addItemsToCollectionWithBaseUrl
    rw [hdocs]
  · exact ⟨mkClient noRemoteData, [mismatchedDoc], sampleLocale, by decide⟩

/-- C3 witness: the two bulk paths evaluated on a concrete list satisfying
the precondition. -/
theorem bulk_write_paths_agree_witness :
    addDocsToCollection (mkClient noRemoteData) [sampleDoc] =
      addItemsToCollection (mkClient noRemoteData) [sampleDoc] sampleLocale :=
  bulk_write_paths_agree.1 (mkClient noRemoteData) [sampleDoc] sampleLocale (by decide)

/-- C10 counterexample: the claim says `addDocToCollection` places the
identifier and locale only in the URL; on a concrete document the serialized
body still carries the document's `locale` field (the spread copy only sets
`_id` to `undefined`), so the locale is not confined to the URL. -/
theorem addDoc_body_retains_locale :
    ∃ s, (addDocToCollection (mkClient noRemoteData) sampleDoc).body = some s ∧
      strContains "\"locale\"" s = true :=
  ⟨_, rfl, by decide⟩

/-- C10 (amended): `addDocToCollection` serializes the body with `_id` set to
`undefined` and hence absent from the JSON, leaves every other field of the
document (including its `locale`) unchanged in the body, and places the
identifier and the locale percent-encoded in the URL as
`encodedId.encodedLanguage_country`. -/
theorem addDocToCollection_request_shape (c : CaasTestingClient) (doc : TestDocument) :
    (addDocToCollection c doc).url =
      c.baseUrl ++ "/" ++ encodeURIComponent doc._id ++ "." ++
        encodeURIComponent (doc.locale.language ++ "_" ++ doc.locale.country) ∧
    (addDocToCollection c doc).method = .PUT ∧
    (addDocToCollection c doc).body =
      some (serializeBodyDoc
        { _id := none, identifier := doc.identifier, locale := doc.locale, data := doc.data }) ∧
    (∀ (i : String) (l : Locale) (dt : List (String × String)),
      serializeBodyDoc { _id := none, identifier := i, locale := l, data := dt } =
        "\x7b" ++ "\"identifier\":" ++ jsonStr i ++ ",\"locale\":" ++
          serializeLocale l ++ serializeData dt ++ "\x7d") := by
  refine ⟨rfl, rfl, rfl, fun i l dt => ?_⟩
  simp [serializeBodyDoc]

/-- The retry loop performs at most `remaining` further invocations. -/
theorem retryGo_calls_le {A : Type} (fn : Nat → Except String A) :
    ∀ (r a : Nat) (last : String) (calls : Nat),
      (retryGo fn r a last calls).2 ≤ calls + r := by
  intro r
  induction r with
  | zero => intro a last calls; simp [retryGo]
  | succ r ih =>
    intro a last calls
    rw [retryGo]
    cases hfa : fn a with
    | ok v =>
      show calls + 1 ≤ calls + (r + 1)
      omega
    | error e =>
      show (retryGo fn r (a + 1) e (calls + 1)).2 ≤ calls + (r + 1)
      exact le_trans (ih (a + 1) e (calls + 1)) (by omega)

/-- If the first `k` invocations starting at attempt `a` throw and the next
one succeeds within the budget, the loop returns that value after `k + 1`
invocations. -/
theorem retryGo_first_success {A : Type} (fn : Nat → Except String A) (v : A)
    (es : Nat → String) :
    ∀ (k r a : Nat) (last : String) (calls : Nat), k < r →
      (∀ j, j < k → fn (a + j) = .error (es (a + j))) →
      fn (a + k) = .ok v →
      retryGo fn r a last calls = (.ok v, calls + k + 1) := by
  intro k
  induction k with
  | zero =>
    intro r a last calls hr hfail hok
    obtain ⟨r', rfl⟩ : ∃ r', r = r' + 1 := ⟨r - 1, by omega⟩
    rw [retryGo, show fn a = .ok v from by simpa using hok]
  | succ k ih =>
    intro r a last calls hr hfail hok
    obtain ⟨r', rfl⟩ : ∃ r', r = r' + 1 := ⟨r - 1, by omega⟩
    rw [retryGo]
    rw [show fn a = .error (es a) from by simpa using hfail 0 (Nat.succ_pos k)]
    simp only
    have hfail' : ∀ j, j < k → fn (a + 1 + j) = .error (es (a + 1 + j)) := by
      intro j hj
      have := hfail (j + 1) (by omega)
      simpa [Nat.add_assoc, Nat.add_comm 1 j] using this
    have hok' : fn (a + 1 + k) = .ok v := by
      have h := hok
      rw [show a + (k + 1) = a + 1 + k from by omega] at h
      exact h
    have := ih r' (a + 1) (es a) (calls + 1) (by omega) hfail' hok'
    rw [this]
    congr 1
    omega

/-- If every invocation in the budget throws, the loop exhausts the budget
and returns the error of the final invocation. -/
theorem retryGo_all_fail {A : Type} (fn : Nat → Except String A) (es : Nat → String) :
    ∀ (r a : Nat) (last : String) (calls : Nat), 0 < r →
      (∀ j, j < r → fn (a + j) = .error (es (a + j))) →
      retryGo fn r a last calls = (.error (es (a + (r - 1))), calls + r) := by
  intro r
  induction r with
  | zero => intro a last calls h; omega
  | succ r ih =>
    intro a last calls _ hfail
    rw [retryGo]
    rw [show fn a = .error (es a) from by simpa using hfail 0 (Nat.succ_pos r)]
    simp only
    cases r with
    | zero => simp [retryGo]
    | succ r' =>
      have hfail' : ∀ j, j < r' + 1 → fn (a + 1 + j) = .error (es (a + 1 + j)) := by
        intro j hj
        have := hfail (j + 1) (by omega)
        simpa [Nat.add_assoc, Nat.add_comm 1 j] using this
      have := ih (a + 1) (es a) (calls + 1) (Nat.succ_pos r') hfail'
      rw [this]
      have h1 : a + 1 + (r' + 1 - 1) = a + (r' + 1 + 1 - 1) := by omega
      have h2 : calls + 1 + (r' + 1) = calls + (r' + 1 + 1) := by omega
      rw [h1, h2]

/-- C8: `retryAsync` invokes `fn` at most `maxRetries` times; it returns the
value of the first invocation that does not throw; if every invocation in
a positive budget throws, it rethrows the error of the final invocation; and
for a nonpositive budget it never invokes `fn` and throws the error with
message "No attempts made". Invocation `i` of `fn` is `fn i` (1-based) and
the second component counts the invocations performed. -/
theorem retryAsync_spec {A : Type} :
    (∀ (fn : Nat → Except String A) (n : Int),
      ((retryAsync fn n).2 : Int) ≤ max n 0) ∧
    (∀ (fn : Nat → Except String A) (n : Int) (es : Nat → String) (i : Nat) (v : A),
      1 ≤ i → i ≤ n.toNat →
      (∀ j, 1 ≤ j → j < i → fn j = .error (es j)) →
      fn i = .ok v →
      retryAsync fn n = (.ok v, i)) ∧
    (∀ (fn : Nat → Except String A) (n : Int) (es : Nat → String),
      1 ≤ n →
      (∀ j, 1 ≤ j → j ≤ n.toNat → fn j = .error (es j)) →
      retryAsync fn n = (.error (es n.toNat), n.toNat)) ∧
    (∀ (fn : Nat → Except String A) (n : Int), n ≤ 0 →
      retryAsync fn n = (.error "No attempts made", 0)) := by
  refine ⟨?_, ?_, ?_, ?_⟩
  · intro fn n
    have h := retryGo_calls_le fn n.toNat 1 "No attempts made" 0
    have h2 : ((retryAsync fn n).2 : Int) ≤ (n.toNat : Int) := by
      unfold retryAsync
      exact_mod_cast by simpa using h
    calc ((retryAsync fn n).2 : Int) ≤ (n.toNat : Int) := h2
      _ = max n 0 := Int.toNat_eq_max n ▸ rfl
  · intro fn n es i v hi hin hfail hok
    unfold retryAsync
    have hfail' : ∀ j, j < i - 1 → fn (1 + j) = .error (es (1 + j)) := by
      intro j hj
      exact hfail (1 + j) (by omega) (by omega)
    have hok' : fn (1 + (i - 1)) = .ok v := by
      rw [show 1 + (i - 1) = i from by omega]
      exact hok
    have := retryGo_first_success fn v es (i - 1) n.toNat 1 "No attempts made" 0
      (by omega) hfail' hok'
    rw [this]
    congr 1
    omega
  · intro fn n es hn hfail
    unfold retryAsync
    have hpos : 0 < n.toNat := by omega
    have hfail' : ∀ j, j < n.toNat → fn (1 + j) = .error (es (1 + j)) := by
      intro j hj
      exact hfail (1 + j) (by omega) (by omega)
    have := retryGo_all_fail fn es n.toNat 1 "No attempts made" 0 hpos hfail'
    rw [this]
    have h1 : 1 + (n.toNat - 1) = n.toNat := by omega
    have h2 : 0 + n.toNat = n.toNat := by omega
    rw [h1, h2]
  · intro fn n hn
    unfold retryAsync
    rw [show n.toNat = 0 from by omega]
    rfl

/-- C8 witness: a function whose first invocation throws and whose second
returns `37`, retried with a budget of three attempts, yields `37` after two
invocations. -/
theorem retryAsync_spec_witness :
    retryAsync (fun j => if j = 1 then Except.error "boom" else Except.ok (37 : Nat)) 3 =
      (Except.ok 37, 2) :=
  (@retryAsync_spec Nat).2.1 _ 3 (fun _ => "boom") 2 37 (by decide) (by decide)
    (by
      intro j h1 h2
      have : j = 1 := by omega
      subst this
      rfl)
    rfl

/-- A successful poll result can only come from an invocation of the
condition that returned `true` while the elapsed time was still below the
timeout. -/
theorem waitGo_ok_of_success (cond : Nat → Except Unit Bool) (clock : Nat → Nat)
    (timeoutMs : Int) (msg : String) :
    ∀ (fuel i calls k : Nat),
      waitGo cond clock timeoutMs msg fuel i calls = some (.ok (), k) →
      ∃ j, (clock j : Int) < timeoutMs ∧ cond j = .ok true := by
  intro fuel
  induction fuel with
  | zero => intro i calls k h; simp [waitGo] at h
  | succ fuel ih =>
    intro i calls k h
    rw [waitGo] at h
    by_cases hc : (clock i : Int) < timeoutMs
    · rw [if_pos hc] at h
      cases hcond : cond i with
      | ok b =>
        cases b with
        | true => exact ⟨i, hc, hcond⟩
        | false =>
          rw [hcond] at h
          exact ih (i + 1) (calls + 1) k h
      | error e =>
        rw [hcond] at h
        exact ih (i + 1) (calls + 1) k h
    · rw [if_neg hc] at h
      simp at h

/-- Exceptions of the condition are swallowed: replacing every throwing
invocation by one that returns `false` leaves the poll loop's behaviour
unchanged. -/
theorem waitGo_swallows_exceptions (cond cond' : Nat → Except Unit Bool)
    (clock : Nat → Nat) (timeoutMs : Int) (msg : String)
    (hagree : ∀ i, cond' i = match cond i with
      | .error _ => .ok false
      | x => x) :
    ∀ (fuel i calls : Nat),
      waitGo cond clock timeoutMs msg fuel i calls =
        waitGo cond' clock timeoutMs msg fuel i calls := by
  intro fuel
  induction fuel with
  | zero => intro i calls; rfl
  | succ fuel ih =>
    intro i calls
    rw [waitGo, waitGo]
    by_cases hc : (clock i : Int) < timeoutMs
    · rw [if_pos hc, if_pos hc]
      have h := hagree i
      cases hcond : cond i with
      | ok b =>
        rw [hcond] at h
        cases b with
        | true => rw [h]
        | false => rw [h]; exact ih (i + 1) (calls + 1)
      | error e =>
        rw [hcond] at h
        rw [h]
        exact ih (i + 1) (calls + 1)
    · rw [if_neg hc, if_neg hc]

/-- If the first `k` checks happen below the timeout without a truthy result
and the `k`-th check observes the timeout elapsed, the loop throws the
timeout error after exactly `k` condition invocations. -/
theorem waitGo_timeout (cond : Nat → Except Unit Bool) (clock : Nat → Nat)
    (timeoutMs : Int) (msg : String) :
    ∀ (k fuel i calls : Nat), k < fuel →
      (∀ j, j < k → (clock (i + j) : Int) < timeoutMs ∧ cond (i + j) ≠ .ok true) →
      ¬ ((clock (i + k) : Int) < timeoutMs) →
      waitGo cond clock timeoutMs msg fuel i calls =
        some (.error (msg ++ " (waited " ++ toString timeoutMs ++ "ms)"), calls + k) := by
  intro k
  induction k with
  | zero =>
    intro fuel i calls hfuel _ hstop
    obtain ⟨f', rfl⟩ : ∃ f', fuel = f' + 1 := ⟨fuel - 1, by omega⟩
    rw [waitGo, if_neg (by simpa using hstop)]
    rfl
  | succ k ih =>
    intro fuel i calls hfuel hbelow hstop
    obtain ⟨f', rfl⟩ : ∃ f', fuel = f' + 1 := ⟨fuel - 1, by omega⟩
    obtain ⟨hclock0, hcond0⟩ := hbelow 0 (Nat.succ_pos k)
    rw [waitGo, if_pos (by simpa using hclock0)]
    have hbelow' : ∀ j, j < k →
        (clock (i + 1 + j) : Int) < timeoutMs ∧ cond (i + 1 + j) ≠ .ok true := by
      intro j hj
      have := hbelow (j + 1) (by omega)
      constructor
      · have h := this.1
        rw [show i + (j + 1) = i + 1 + j from by omega] at h
        exact h
      · have h := this.2
        rw [show i + (j + 1) = i + 1 + j from by omega] at h
        exact h
    have hstop' : ¬ ((clock (i + 1 + k) : Int) < timeoutMs) := by
      rw [show i + 1 + k = i + (k + 1) from by omega]
      exact hstop
    have htail := ih f' (i + 1) (calls + 1) (by omega) hbelow' hstop'
    cases hcond : cond i with
    | ok b =>
      cases b with
      | true => exact absurd hcond hcond0
      | false =>
        rw [htail]
        have : calls + 1 + k = calls + (k + 1) := by omega
        rw [this]
    | error e =>
      rw [htail]
      have : calls + 1 + k = calls + (k + 1) := by omega
      rw [this]

/-- C9: `waitUntilPreconditionMet` succeeds only if the condition returned a
truthy value while the elapsed time was below `timeoutMs`; exceptions of the
condition are swallowed and polling continues; once the timeout is observed
without a truthy result it throws the error carrying the configured message;
and for a nonpositive `timeoutMs` it throws without invoking the condition.
`cond i` is the outcome of the `i`-th condition invocation, `clock i` the
elapsed time at the `i`-th loop check, and the second result component
counts condition invocations. -/
theorem waitUntilPreconditionMet_spec :
    (∀ (cond : Nat → Except Unit Bool) (clock : Nat → Nat) (t : Int) (msg : String)
        (fuel k : Nat),
      waitUntilPreconditionMet cond clock t msg fuel = some (.ok (), k) →
      ∃ j, (clock j : Int) < t ∧ cond j = .ok true) ∧
    (∀ (cond cond' : Nat → Except Unit Bool) (clock : Nat → Nat) (t : Int) (msg : String),
      (∀ i, cond' i = match cond i with
        | .error _ => .ok false
        | x => x) →
      ∀ fuel, waitUntilPreconditionMet cond clock t msg fuel =
        waitUntilPreconditionMet cond' clock t msg fuel) ∧
    (∀ (cond : Nat → Except Unit Bool) (clock : Nat → Nat) (t : Int) (msg : String)
        (k fuel : Nat), k < fuel →
      (∀ j, j < k → (clock j : Int) < t ∧ cond j ≠ .ok true) →
      ¬ ((clock k : Int) < t) →
      waitUntilPreconditionMet cond clock t msg fuel =
        some (.error (msg ++ " (waited " ++ toString t ++ "ms)"), k)) ∧
    (∀ (cond : Nat → Except Unit Bool) (clock : Nat → Nat) (t : Int) (msg : String)
        (fuel : Nat), t ≤ 0 → 0 < fuel →
      waitUntilPreconditionMet cond clock t msg fuel =
        some (.error (msg ++ " (waited " ++ toString t ++ "ms)"), 0)) := by
  refine ⟨?_, ?_, ?_, ?_⟩
  · intro cond clock t msg fuel k h
    exact waitGo_ok_of_success cond clock t msg fuel 0 0 k h
  · intro cond cond' clock t msg hagree fuel
    exact waitGo_swallows_exceptions cond cond' clock t msg hagree fuel 0 0
  · intro cond clock t msg k fuel hfuel hbelow hstop
    have hbelow' : ∀ j, j < k → (clock (0 + j) : Int) < t ∧ cond (0 + j) ≠ .ok true := by
      intro j hj
      have := hbelow j hj
      rw [Nat.zero_add]
      exact this
    have hstop' : ¬ ((clock (0 + k) : Int) < t) := by
      rw [Nat.zero_add]
      exact hstop
    have := waitGo_timeout cond clock t msg k fuel 0 0 hfuel hbelow' hstop'
    rw [waitUntilPreconditionMet, this, Nat.zero_add]
  · intro cond clock t msg fuel ht hfuel
    have hstop : ¬ ((clock 0 : Int) < t) := by
      intro hlt
      have : (0 : Int) ≤ (clock 0 : Int) := Int.natCast_nonneg _
      omega
    have := waitGo_timeout cond clock t msg 0 fuel 0 0 hfuel (by omega) hstop
    rw [waitUntilPreconditionMet, this]

/-- C9 witness: with a zero timeout the poll loop throws immediately with the
configured message and zero condition invocations. -/
theorem waitUntilPreconditionMet_spec_witness :
    waitUntilPreconditionMet (fun _ => .ok false) (fun i => 500 * i) 0 "Condition not met within timeout" 1 =
      some (.error ("Condition not met within timeout" ++ " (waited " ++ toString (0 : Int) ++ "ms)"), 0) :=
  waitUntilPreconditionMet_spec.2.2.2 (fun _ => .ok false) (fun i => 500 * i) 0
    "Condition not met within timeout" 1 (by decide) (by decide)

/-- A successfully translated child list is the input list translated
pointwise, in input order. -/
theorem translateFilterList_ok :
    ∀ (cs : List FilterExpression) (rs : List NativeFilter),
      translateFilterList cs = .ok rs →
      rs.length = cs.length ∧
        ∀ (i : Nat) (h1 : i < cs.length) (h2 : i < rs.length),
          translateFilter (cs.get ⟨i, h1⟩) = .ok (rs.get ⟨i, h2⟩) := by
  intro cs
  induction cs with
  | nil =>
    intro rs h
    rw [translateFilterList] at h
    cases h
    exact ⟨rfl, fun i h1 h2 => absurd h1 (by simp)⟩
  | cons c cs ih =>
    intro rs h
    rw [translateFilterList] at h
    cases hc : translateFilter c with
    | error e => rw [hc] at h; simp at h
    | ok r =>
      rw [hc] at h
      cases hcs : translateFilterList cs with
      | error e => rw [hcs] at h; simp at h
      | ok rs' =>
        rw [hcs] at h
        simp only at h
        cases h
        obtain ⟨hlen, hget⟩ := ih rs' hcs
        refine ⟨by simp [hlen], ?_⟩
        intro i h1 h2
        cases i with
        | zero => simpa using hc
        | succ i =>
          have h1' : i < cs.length := by simpa using h1
          have h2' : i < rs'.length := by simpa using h2
          simpa using hget i h1' h2'

/-- C5: `translateFilter` is deterministic — it is a pure function of the
tree, so two runs on the same tree yield identical output — and
order-preserving: a successfully translated Logical node yields a native
composite keyed by the logical operator whose children are the translations
of the input children, pointwise in input order. -/
theorem translateFilter_deterministic_ordered :
    (∀ t : FilterExpression, translateFilter t = translateFilter t) ∧
    (∀ (op : LogicalQueryOperatorEnum) (cs : List FilterExpression) (out : NativeFilter),
      translateFilter (.logical op cs) = .ok out →
      ∃ rs : List NativeFilter, out = .composite op.key rs ∧
        rs.length = cs.length ∧
        ∀ (i : Nat) (h1 : i < cs.length) (h2 : i < rs.length),
          translateFilter (cs.get ⟨i, h1⟩) = .ok (rs.get ⟨i, h2⟩)) := by
  refine ⟨fun t => rfl, ?_⟩
  intro op cs out h
  simp only [translateFilter.eq_def] at h
  cases cs with
  | nil => simp at h
  | cons c cs' =>
    simp only [] at h
    by_cases harity : op = .NOT ∧ 0 < cs'.length
    · rw [if_pos harity] at h; simp at h
    · rw [if_neg harity] at h
      cases hlist : translateFilterList (c :: cs') with
      | error e => rw [hlist] at h; simp at h
      | ok rs =>
        rw [hlist] at h
        simp only at h
        cases h
        obtain ⟨hlen, hget⟩ := translateFilterList_ok (c :: cs') rs hlist
        exact ⟨rs, rfl, hlen, hget⟩

/-- C5 witness: an AND node with two comparison children translates to the
native composite holding both children in input order. -/
theorem translateFilter_deterministic_ordered_witness :
    ∃ rs : List NativeFilter,
      NativeFilter.composite "$and"
        [.field "title" "$eq" (.str "Home"), .field "done" "$eq" (.str "yes")] =
        .composite (LogicalQueryOperatorEnum.key .AND) rs ∧
      rs.length = ([FilterExpression.comparison "title" .EQUALS (.str "Home"),
        FilterExpression.comparison "done" .EQUALS (.str "yes")] : List FilterExpression).length ∧
      ∀ (i : Nat)
        (h1 : i < ([FilterExpression.comparison "title" .EQUALS (.str "Home"),
          FilterExpression.comparison "done" .EQUALS (.str "yes")] : List FilterExpression).length)
        (h2 : i < rs.length),
        translateFilter (([FilterExpression.comparison "title" .EQUALS (.str "Home"),
          FilterExpression.comparison "done" .EQUALS (.str "yes")] : List FilterExpression).get ⟨i, h1⟩) =
          .ok (rs.get ⟨i, h2⟩) :=
  translateFilter_deterministic_ordered.2 .AND
    [.comparison "title" .EQUALS (.str "Home"), .comparison "done" .EQUALS (.str "yes")]
    (.composite "$and" [.field "title" "$eq" (.str "Home"), .field "done" "$eq" (.str "yes")])
    (by simp [translateFilter, translateFilterList,
      ComparisonQueryOperatorEnum.key, LogicalQueryOperatorEnum.key])

/-- C6: `map` over a graph with a reference cycle terminates (the resolver is
a total function of the bounded depth budget) and the back-edge is cut:
resolving an identifier that is already in progress yields an
UnresolvedMarker, and on the two-node cyclic graph the back-edge onto the
root appears in the result as an UnresolvedMarker rather than a live
reference, for every remaining depth budget. -/
theorem map_cuts_reference_cycles :
    (∀ (graph : String → Option RawItem) (fuel : Nat) (inProgress : List String) (id : String),
      id ∈ inProgress →
      resolveRef graph (fuel + 1) inProgress id = .unresolved id .cycleDetected) ∧
    (∀ (a b : String), a ≠ b → ∀ fuel : Nat,
      mapItem (twoCycleGraph a b) (fuel + 3) a =
        .item a [.item b [.unresolved a .cycleDetected]]) := by
  constructor
  · intro graph fuel inProgress id h
    rw [resolveRef, if_pos h]
  · intro a b hab fuel
    have hba : b ≠ a := fun h => hab h.symm
    simp [mapItem, resolveRef, twoCycleGraph, hab, hba]

/-- C6 witness: the cycle cut evaluated on the concrete two-node cycle with
the spec's default depth budget of 10. -/
theorem map_cuts_reference_cycles_witness :
    mapItem (twoCycleGraph "a" "b") 10 "a" =
      .item "a" [.item "b" [.unresolved "a" .cycleDetected]] :=
  map_cuts_reference_cycles.2 "a" "b" (by decide) 7

/-- The fetch log of the sibling resolver contains exactly the identifiers
not already memoized, each once. -/
theorem siblingFetchGo_mem :
    ∀ (refs memo : List String) (x : String),
      x ∈ siblingFetchGo refs memo ↔ x ∈ refs ∧ x ∉ memo := by
  intro refs
  induction refs with
  | nil => intro memo x; simp [siblingFetchGo]
  | cons r rs ih =>
    intro memo x
    rw [siblingFetchGo]
    by_cases hr : r ∈ memo
    · rw [if_pos hr]
      rw [ih memo x]
      constructor
      · rintro ⟨hx, hnm⟩; exact ⟨List.mem_cons_of_mem r hx, hnm⟩
      · rintro ⟨hx, hnm⟩
        rcases List.mem_cons.mp hx with heq | hmem
        · subst heq; exact absurd hr hnm
        · exact ⟨hmem, hnm⟩
    · rw [if_neg hr]
      constructor
      · intro hx
        rcases List.mem_cons.mp hx with heq | hmem
        · subst heq; exact ⟨List.mem_cons_self x rs, hr⟩
        · obtain ⟨hin, hnm⟩ := (ih (r :: memo) x).mp hmem
          exact ⟨List.mem_cons_of_mem r hin,
            fun hcontra => hnm (List.mem_cons_of_mem r hcontra)⟩
      · rintro ⟨hx, hnm⟩
        rcases List.mem_cons.mp hx with heq | hmem
        · subst heq; exact List.mem_cons_self x (siblingFetchGo rs (x :: memo))
        · by_cases hxr : x = r
          · subst hxr; exact List.mem_cons_self x (siblingFetchGo rs (x :: memo))
          · refine List.mem_cons_of_mem r ((ih (r :: memo) x).mpr ⟨hmem, ?_⟩)
            intro hcontra
            rcases List.mem_cons.mp hcontra with heq | hmemm
            · exact hxr heq
            · exact hnm hmemm

/-- The fetch log of the sibling resolver has no duplicates. -/
theorem siblingFetchGo_nodup :
    ∀ (refs memo : List String), (siblingFetchGo refs memo).Nodup := by
  intro refs
  induction refs with
  | nil => intro memo; simp [siblingFetchGo]
  | cons r rs ih =>
    intro memo
    rw [siblingFetchGo]
    by_cases hr : r ∈ memo
    · rw [if_pos hr]; exact ih memo
    · rw [if_neg hr]
      refine List.nodup_cons.mpr ⟨?_, ih (r :: memo)⟩
      intro hcontra
      obtain ⟨_, hnm⟩ := (siblingFetchGo_mem rs (r :: memo) r).mp hcontra
      exact hnm (List.mem_cons_self r memo)

/-- C7: resolving sibling references with duplicate identifiers performs
exactly one fetch per unique identifier — the fetch log has no duplicates
and contains precisely the referenced identifiers, so each referenced
identifier is fetched exactly once — and the log is the same for every value
of `resolutionConcurrency`. -/
theorem siblingFetches_once_per_identifier :
    (∀ (concurrency : Nat) (refs : List String), (siblingFetches concurrency refs).Nodup) ∧
    (∀ (concurrency : Nat) (refs : List String) (id : String),
      id ∈ siblingFetches concurrency refs ↔ id ∈ refs) ∧
    (∀ (concurrency : Nat) (refs : List String) (id : String), id ∈ refs →
      (siblingFetches concurrency refs).count id = 1) ∧
    (∀ (c c' : Nat) (refs : List String), siblingFetches c refs = siblingFetches c' refs) := by
  have hmem : ∀ (concurrency : Nat) (refs : List String) (id : String),
      id ∈ siblingFetches concurrency refs ↔ id ∈ refs := by
    intro concurrency refs id
    rw [siblingFetches]
    rw [siblingFetchGo_mem refs [] id]
    simp
  refine ⟨fun concurrency refs => siblingFetchGo_nodup refs [], hmem, ?_, fun c c' refs => rfl⟩
  intro concurrency refs id hid
  exact List.count_eq_one_of_mem (siblingFetchGo_nodup refs [])
    ((hmem concurrency refs id).mpr hid)

/-- C7 witness: a sibling list with a duplicated identifier fetches that
identifier exactly once, at an arbitrary concurrency bound. -/
theorem siblingFetches_once_per_identifier_witness :
    (siblingFetches 4 ["x", "y", "x"]).count "x" = 1 :=
  siblingFetches_once_per_identifier.2.2.1 4 ["x", "y", "x"] "x" (by decide)

end FsxaApi
